import Mathlib

/-!
Verification development for the Kedro RAG knowledge-base core
(`src/kedro_rag.py`, `src/kedro_mcp.py`).

Modelling conventions:
* Python strings are Lean `String`s (internally `List Char`); the whitespace
  class of `re`'s `\s` and of `str.strip()` is modelled by `pySpace`, the ASCII
  whitespace characters (inputs are treated as ASCII; both Python constructs
  use the same class, which is all the theorems below depend on).
* Embedding vectors are opaque payloads, modelled as `List Int`; no theorem
  computes on vector values.
* Fallible Python calls (the HTTP fetch, the embedding model) are modelled as
  `Except String` values / functions supplied as parameters; an exception
  escaping a Python function is an `Except.error` result.
* The chromadb collection object is external to the repository; it is modelled
  from the spec (see `upsertOne` / `collection_add`).
-/

/-- ASCII whitespace, the characters matched by `\s` and stripped by
`str.strip()` on ASCII input. -/
def pySpace (c : Char) : Bool :=
  c = ' ' || c = '\t' || c = '\n' || c = '\r' || c = '\x0b' || c = '\x0c'

/-- Python `str.strip()` on a character list: drop whitespace from both ends. -/
def pyStripL (s : List Char) : List Char :=
  ((s.dropWhile pySpace).reverse.dropWhile pySpace).reverse

/-- Python `str.strip()` on a `String`. -/
def pyStripS (s : String) : String :=
  (pyStripL s.data).asString

/-- Length of the run of `'#'` characters at the head of the list. -/
def leadHashes : List Char → Nat
  | '#' :: r => leadHashes r + 1
  | _ => 0

/-- Matcher for the tail of the separator regex `\n#{1,3}\s+`
(`src/kedro_rag.py` line 33), applied to the characters following a `'\n'`:
the regex matches here iff the leading `'#'` run has length 1–3 and is
followed by a whitespace character; `\s+` is greedy, so the whole whitespace
run is consumed.  Returns the remaining characters after the match. -/
def sepAfterNewline (cs : List Char) : Option (List Char) :=
  let k := leadHashes cs
  if 1 ≤ k ∧ k ≤ 3 then
    match cs.drop k with
    | c :: rest => if pySpace c then some (rest.dropWhile pySpace) else none
    | [] => none
  else none

/-- Worker for `re.split(r'\n#{1,3}\s+', content)`: scan left to right,
cutting at every separator match.  `acc` holds the current span reversed;
`fuel` bounds recursion (with `fuel = length` the exhaustion branch is
unreachable, since every step consumes at least one character). -/
def splitGo : Nat → List Char → List Char → List (List Char)
  | 0, acc, rest => [acc.reverse ++ rest]
  | _ + 1, acc, [] => [acc.reverse]
  | fuel + 1, acc, c :: rest =>
    if c = '\n' then
      match sepAfterNewline rest with
      | some rest' => acc.reverse :: splitGo fuel [] rest'
      | none => splitGo fuel (c :: acc) rest
    else splitGo fuel (c :: acc) rest

/-- `re.split(r'\n#{1,3}\s+', content)` (`src/kedro_rag.py` line 33). -/
def splitSections (content : List Char) : List (List Char) :=
  splitGo content.length [] content

/-- Python `enumerate`, with an explicit starting index. -/
def enumFrom {α : Type} : Nat → List α → List (Nat × α)
  | _, [] => []
  | n, a :: l => (n, a) :: enumFrom (n + 1) l

/-- `KedroRAG.format_documentation` (`src/kedro_rag.py` lines 28–45): split
on heading separators, keep the spans that are non-blank after stripping,
keyed `"kedro_doc_chunk_<i>"` by the span's position among all spans.  The
Python dict is insertion-ordered, modelled as an association list.  (The
`title` computed on line 39 is only logged and does not affect the result.) -/
def format_documentation (content : String) : List (String × String) :=
  (enumFrom 0 (splitSections content.data)).filterMap fun p =>
    let st := pyStripL p.2
    if st.isEmpty then none
    else some ("kedro_doc_chunk_" ++ toString p.1, st.asString)

/-- Embedding vectors: opaque numeric payloads (the claims never compute on
vector values, only on shapes and association). -/
abbrev Vec := List Int

/-- Argument of the closure built by `KedroRAG.create_embedding_function`
(`src/kedro_rag.py` lines 47–64): Python lets callers pass either a single
string or a list of strings. -/
inductive TextsInput
  | str (s : String)
  | list (l : List String)
deriving DecidableEq

/-- Result of that closure: either one flat vector (`embeddings[0].tolist()`)
or a list of vectors. -/
inductive EmbOutput
  | vec (v : Vec)
  | vecs (vs : List Vec)
deriving DecidableEq

/-- The closure returned by `KedroRAG.create_embedding_function`
(`src/kedro_rag.py` lines 50–62).  `encode` models
`self.embedder.encode` (the external sentence-transformer), mapping a batch
of texts to one vector per text; `.tolist()` is the identity in this model.
`embeddings[0]` is modelled by `getD 0 []`, which agrees with Python whenever
`encode` returns one vector per input text. -/
def embedding_function (encode : List String → List Vec) : TextsInput → EmbOutput
  | input =>
    let texts := match input with
      | .str s => [s]
      | .list l => l
    let embeddings := encode texts
    if texts.length = 1 then .vec (embeddings.getD 0 [])
    else .vecs embeddings

/-- One stored record of the chromadb collection `"kedro_knowledge"`:
id, embedding, document text, metadata map (modelled as an association
list, as every metadata dict in the source has string values). -/
structure StoreRec where
  id : String
  emb : Vec
  document : String
  metadata : List (String × String)
deriving DecidableEq

/-- The collection's contents, in insertion order. -/
abbrev Collection := List StoreRec

/-- The argument tuple of one `collection.add(embeddings=…, documents=…,
metadatas=…, ids=…)` call. -/
structure AddCall where
  ids : List String
  embs : List Vec
  documents : List String
  metadatas : List (List (String × String))
deriving DecidableEq

/-- Reassociate an `AddCall`'s four parallel lists into records. -/
def zipRecords (c : AddCall) : List StoreRec :=
  (c.ids.zip (c.embs.zip (c.documents.zip c.metadatas))).map
    fun q => ⟨q.1, q.2.1, q.2.2.1, q.2.2.2⟩

/-- Modelled from the spec: the Vector Store Adapter is not implemented under
`src/` (the source calls an external store client); spec §3 and §4.3 fix its
write semantics: "ids are unique — re-adding the same id must overwrite, not
duplicate".  Writing one record: overwrite in place when the id exists,
append otherwise. -/
def upsertOne (st : Collection) (r : StoreRec) : Collection :=
  if st.any (fun x => x.id == r.id) then
    st.map fun x => if x.id == r.id then r else x
  else st ++ [r]

/-- Modelled from the spec: a whole store write call (spec §4.3), one
`upsertOne` per row of the call, in order. -/
def collection_add (st : Collection) (c : AddCall) : Collection :=
  (zipRecords c).foldl upsertOne st

/-- Pack a list of records into one store write call (the source builds the
four parallel lists `ids`/`embeddings`/`documents`/`metadatas` in loop
order). -/
def recsToCall (rows : List StoreRec) : AddCall :=
  ⟨rows.map (·.id), rows.map (·.emb), rows.map (·.document), rows.map (·.metadata)⟩

/-- An HTTP response as seen by `httpx`: status code and body text. -/
structure HttpResponse where
  status : Nat
  text : String
deriving DecidableEq

/-- Metadata written for one documentation chunk
(`src/kedro_rag.py` line 94). -/
def docMeta (cid : String) : List (String × String) :=
  [("chunk_id", cid), ("source", "kedro_docs")]

/-- The embedding loop of `KedroRAG.build_knowledge_base`
(`src/kedro_rag.py` lines 87–94): embed each chunk in order; an exception
from the embedder (modelled as `Except.error`) aborts the loop — there is no
per-item `try`/`except` in the source. -/
def collectRows (embed : String → Except String Vec) :
    List (String × String) → Except String (List StoreRec)
  | [] => .ok []
  | cd :: rest => do
    let e ← embed cd.2
    let tail ← collectRows embed rest
    pure (⟨cd.1, e, cd.2, docMeta cd.1⟩ :: tail)

/-- `KedroRAG.build_knowledge_base` (`src/kedro_rag.py` lines 66–103).
`fetch` models `await client.get(…)`: `Except.error` for a raised transport
error, `Except.ok response` otherwise.  The source reads `response.text`
without ever inspecting `response.status_code` (no `raise_for_status`), so a
non-2xx response's body is chunked and ingested like any other.  On success
the result carries the new collection state and the single
`collection.add` call issued on lines 96–101 — issued unconditionally, even
when there are zero chunks. -/
def build_knowledge_base (embed : String → Except String Vec)
    (fetch : Except String HttpResponse) (st : Collection) :
    Except String (Collection × AddCall) := do
  let response ← fetch
  let content := response.text
  let chunks := format_documentation content
  let rows ← collectRows embed chunks
  let call := recsToCall rows
  pure (collection_add st call, call)

/-- Python `d.get(k, default)` on a string-valued association list. -/
def lookupD (m : List (String × String)) (k d : String) : String :=
  ((m.find? (fun p => p.1 == k)).map (·.2)).getD d

/-- One raw message record passed to `KedroRAG.add_slack_data`:
`message.get('content', '')` and `message.get('metadata', {})`. -/
structure SlackMsg where
  content : String
  metadata : List (String × String)
deriving DecidableEq

/-- The id synthesized on `src/kedro_rag.py` line 148:
`f"slack_{channel_name}_{i}_{int(datetime.now().timestamp())}"`; `now` is
the integer timestamp, a parameter of the model. -/
def slackId (channel : String) (i now : Nat) : String :=
  "slack_" ++ channel ++ "_" ++ toString i ++ "_" ++ toString now

/-- Metadata written per Slack message (`src/kedro_rag.py` lines 154–160). -/
def slackMeta (channel : String) (msg : SlackMsg) : List (String × String) :=
  [("source", "slack"), ("channel", channel),
   ("message_type", lookupD msg.metadata "message_type" "message"),
   ("user", lookupD msg.metadata "user" "Unknown"),
   ("timestamp", lookupD msg.metadata "timestamp" "Unknown")]

/-- The filtering/embedding loop of `KedroRAG.add_slack_data`
(`src/kedro_rag.py` lines 142–165) over `enumerate(slack_messages)`:
blank-content records are skipped (`continue`); an embedder exception aborts
the loop (no per-item `try`/`except`). -/
def collectSlackRows (embed : String → Except String Vec)
    (channel : String) (now : Nat) :
    List (Nat × SlackMsg) → Except String (List StoreRec)
  | [] => .ok []
  | (i, m) :: rest =>
    if (pyStripL m.content.data).isEmpty then collectSlackRows embed channel now rest
    else do
      let e ← embed m.content
      let tail ← collectSlackRows embed channel now rest
      pure (⟨slackId channel i now, e, m.content, slackMeta channel m⟩ :: tail)

/-- `KedroRAG.add_slack_data` (`src/kedro_rag.py` lines 131–176).  On success
the result carries the new collection state and the `collection.add` call
issued, if any: the source guards the call with `if ids:` (line 167), so with
zero valid messages no write is issued (`none`). -/
def add_slack_data (embed : String → Except String Vec)
    (msgs : List SlackMsg) (channel : String) (now : Nat) (st : Collection) :
    Except String (Collection × Option AddCall) := do
  let rows ← collectSlackRows embed channel now (enumFrom 0 msgs)
  if rows.isEmpty then pure (st, none)
  else
    let call := recsToCall rows
    pure (collection_add st call, some call)

/-- `Except` success test (used to state that a pipeline run aborted). -/
def exceptIsOk {ε α : Type} : Except ε α → Bool
  | .ok _ => true
  | .error _ => false

/-- The per-query slice of a chromadb query result as read by the source:
`results['documents'][0]`, `results['ids'][0]`, `results['metadatas'][0]`,
`results['distances'][0]`.  (The outer per-query lists are always non-empty —
one inner list per query embedding — so the source's truthiness guards on
them, `if results['documents'] and …`, reduce to guards on these inner
lists.)  Distances are modelled as rationals: the claims about them are
purely order-theoretic. -/
structure QueryResult where
  documents : List String
  ids : List String
  metadatas : List (List (String × String))
  distances : List Rat
deriving DecidableEq

/-- One formatted result row built by `KedroRAG.search`
(`src/kedro_rag.py` lines 229–234). -/
structure SearchRow where
  content : String
  source : String
  metadata : List (String × String)
  relevance_score : Rat
deriving DecidableEq

/-- The query embedding computed on `src/kedro_rag.py` line 213: the
embedding closure applied to a single string, which always yields a flat
vector (line 58). -/
def queryEmbedding (encode : List String → List Vec) (q : String) : Vec :=
  match embedding_function encode (.str q) with
  | .vec v => v
  | .vecs _ => []

/-- `KedroRAG.search` (`src/kedro_rag.py` lines 210–236): embed the query,
query the store with the optional `{"source": source_filter}` where-clause
(modelled by passing the `Option` through), then format each returned
document with `relevance_score = 1 - distance` and
`metadata.get('source', 'unknown')`.  `queryStore` models
`self.collection.query` restricted to the single query embedding. -/
def search (queryStore : Vec → Nat → Option String → QueryResult)
    (encode : List String → List Vec)
    (query : String) (source_filter : Option String) (top_k : Nat) :
    List SearchRow :=
  let r := queryStore (queryEmbedding encode query) top_k source_filter
  (enumFrom 0 r.documents).map fun p =>
    { content := p.2
      source := lookupD (r.metadatas.getD p.1 []) "source" "unknown"
      metadata := r.metadatas.getD p.1 []
      relevance_score := 1 - r.distances.getD p.1 0 }

/-- The separator placed between concatenated chunk contents. -/
def contextSeparator : String := "\n\n---\n\n"

/-- The sentinel returned when retrieval finds nothing. -/
def noContextSentinel : String := "No relevant context found."

/-- Modelled from the spec: `KedroRAG.get_context` is called by
`get_kedro_context` (`src/kedro_mcp.py` line 112) but its definition is
absent from `src/`.  Spec §4.5: "runs search, concatenates result contents
with a visible separator, and returns a sentinel \x22no relevant context\x22
string when the result set is empty". -/
def get_context (queryStore : Vec → Nat → Option String → QueryResult)
    (encode : List String → List Vec) (topic : String) (n_results : Nat) :
    String :=
  let results := search queryStore encode topic none n_results
  if results.isEmpty then noContextSentinel
  else String.intercalate contextSeparator (results.map (·.content))

/-- Return value of the `get_kedro_context` tool
(`src/kedro_mcp.py` lines 96–128): the success dict of lines 114–119, or the
error dict of lines 123–128. -/
inductive McpContextResult
  | ok (topic context source : String) (num_chunks : Nat)
  | failure (msg topic : String)
deriving DecidableEq

/-- `get_kedro_context` (`src/kedro_mcp.py` lines 96–128), given an already
initialized RAG system: calls `get_context` and wraps the string in the
success dict; the `except` branch is reached only if `get_context` raises,
which the modelled `get_context` never does. -/
def get_kedro_context (queryStore : Vec → Nat → Option String → QueryResult)
    (encode : List String → List Vec) (topic : String) (num_chunks : Nat) :
    McpContextResult :=
  .ok topic (get_context queryStore encode topic num_chunks)
    "kedro_documentation" num_chunks

/-- Progress of one task running `get_rag` (`src/kedro_mcp.py` lines 33–63)
under asyncio's cooperative scheduling.  `finished sawBuilt` records whether
the knowledge-base build had completed when the task returned the instance. -/
inductive TaskProgress
  | notStarted
  | awaitingBuild
  | finished (sawBuilt : Bool)
deriving DecidableEq

/-- Process-wide state for two tasks calling `get_rag` concurrently on a
fresh process: `ragInit` is `rag_system is not None` (the global, line 30),
`kbBuilt` is whether `build_knowledge_base` has completed, `buildsStarted`
counts entries into the build. -/
structure McpState where
  ragInit : Bool
  kbBuilt : Bool
  buildsStarted : Nat
  taskA : TaskProgress
  taskB : TaskProgress
deriving DecidableEq

/-- One scheduler step of `get_rag` for one task, at `await` granularity.
From entry up to `await rag_system.build_knowledge_base()` (line 49) the
code runs without suspension: the `rag_system is None` check (line 36), the
assignment `rag_system = KedroRAG(…)` (line 42) and the zero-count check
(lines 46–47) are one atomic block; a fresh collection has count 0, so the
build is entered.  A task that finds `rag_system` already set returns it
immediately (line 63) — whether or not the build has completed.  The second
step of a building task models the build completing and returning. -/
def stepGetRag (s : McpState) (t : TaskProgress) : McpState × TaskProgress :=
  match t with
  | .notStarted =>
    if s.ragInit then (s, .finished s.kbBuilt)
    else ({ s with ragInit := true, buildsStarted := s.buildsStarted + 1 },
          .awaitingBuild)
  | .awaitingBuild => ({ s with kbBuilt := true }, .finished true)
  | .finished b => (s, .finished b)

/-- Run one step of task A (`true`) or task B (`false`). -/
def stepTask (which : Bool) (s : McpState) : McpState :=
  if which then
    let r := stepGetRag s s.taskA
    { r.1 with taskA := r.2 }
  else
    let r := stepGetRag s s.taskB
    { r.1 with taskB := r.2 }

/-- Run a schedule (a list of task choices) from a state. -/
def runSched (sched : List Bool) (s : McpState) : McpState :=
  sched.foldl (fun s w => stepTask w s) s

/-- A fresh process: global unset, nothing built, no tasks started. -/
def initState : McpState := ⟨false, false, 0, .notStarted, .notStarted⟩

/-! ### Helper lemmas -/

theorem dropWhile_dropWhile {α : Type} (p : α → Bool) (l : List α) :
    (l.dropWhile p).dropWhile p = l.dropWhile p := by
  induction l with
  | nil => rfl
  | cons a l ih =>
    cases hpa : p a with
    | true => simpa [List.dropWhile_cons, hpa] using ih
    | false => simp [List.dropWhile_cons, hpa]

theorem dropWhile_head_false {α : Type} (p : α → Bool) (l : List α) :
    l.dropWhile p = [] ∨ ∃ a v, l.dropWhile p = a :: v ∧ p a = false := by
  induction l with
  | nil => left; rfl
  | cons a l ih =>
    cases hpa : p a with
    | true => simpa [List.dropWhile_cons, hpa] using ih
    | false => exact Or.inr ⟨a, l, by simp [List.dropWhile_cons, hpa], hpa⟩

theorem dropWhile_eq_self {α : Type} (p : α → Bool) :
    (l : List α) → (∀ a v, l = a :: v → p a = false) → l.dropWhile p = l
  | [], _ => rfl
  | a :: v, h => by simp [List.dropWhile_cons, h a v rfl]

theorem pyStripL_idem (s : List Char) : pyStripL (pyStripL s) = pyStripL s := by
  unfold pyStripL
  have hstep1 :
      (((s.dropWhile pySpace).reverse.dropWhile pySpace).reverse).dropWhile pySpace =
        ((s.dropWhile pySpace).reverse.dropWhile pySpace).reverse := by
    apply dropWhile_eq_self
    intro a v hav
    have htu : s.dropWhile pySpace =
        ((s.dropWhile pySpace).reverse.dropWhile pySpace).reverse ++
          ((s.dropWhile pySpace).reverse.takeWhile pySpace).reverse := by
      conv_lhs => rw [← List.reverse_reverse (s.dropWhile pySpace)]
      conv_lhs =>
        rw [← List.takeWhile_append_dropWhile (p := pySpace)
          (l := (s.dropWhile pySpace).reverse)]
      rw [List.reverse_append]
    rw [hav] at htu
    rcases dropWhile_head_false pySpace s with h0 | ⟨b, w, hbw, hpb⟩
    · rw [h0] at htu; simp at htu
    · rw [hbw] at htu
      have hba : b = a := by simpa using congrArg List.head? htu
      rwa [← hba]
  rw [hstep1, List.reverse_reverse,
    dropWhile_dropWhile pySpace (s.dropWhile pySpace).reverse]

theorem pyStripS_asString (l : List Char) :
    pyStripS l.asString = (pyStripL l).asString := rfl

theorem enumFrom_length {α : Type} (n : Nat) (l : List α) :
    (enumFrom n l).length = l.length := by
  induction l generalizing n with
  | nil => rfl
  | cons a l ih => simp [enumFrom, ih]

theorem enumFrom_mem {α : Type} (d : α) (n : Nat) (l : List α) (i : Nat) (a : α)
    (h : (i, a) ∈ enumFrom n l) :
    n ≤ i ∧ i - n < l.length ∧ l.getD (i - n) d = a := by
  induction l generalizing n with
  | nil => cases h
  | cons x l ih =>
    rcases List.mem_cons.mp h with hh | ht
    · have h1 : i = n := congrArg Prod.fst hh
      have h2 : a = x := congrArg Prod.snd hh
      subst h1; subst h2
      exact ⟨Nat.le_refl i, by simp, by simp⟩
    · rcases ih (n + 1) ht with ⟨h1, h2, h3⟩
      refine ⟨by omega, by simp only [List.length_cons]; omega, ?_⟩
      have hin : i - n = (i - (n + 1)) + 1 := by omega
      rw [hin, List.getD_cons_succ]
      exact h3

theorem enumFrom_mem_snd {α : Type} (n : Nat) (l : List α) (p : Nat × α)
    (h : p ∈ enumFrom n l) : p.2 ∈ l := by
  induction l generalizing n with
  | nil => cases h
  | cons x l ih =>
    rcases List.mem_cons.mp h with hh | ht
    · rw [hh]; exact List.mem_cons_self _ _
    · exact List.mem_cons_of_mem _ (ih (n + 1) ht)

theorem enumFrom_get {α : Type} (n : Nat) (l : List α) (i : Nat)
    (h : i < l.length) :
    (enumFrom n l).get ⟨i, by rw [enumFrom_length]; exact h⟩ =
      (n + i, l.get ⟨i, h⟩) := by
  induction l generalizing n i with
  | nil => cases h
  | cons x l ih =>
    cases i with
    | zero => simp [enumFrom]
    | succ i =>
      have hi : i < l.length := Nat.lt_of_succ_lt_succ h
      have := ih (n + 1) i hi
      simp only [enumFrom, List.get_cons_succ]
      rw [this]
      have : n + 1 + i = n + (i + 1) := by omega
      rw [this]

theorem find_replaced (st : Collection) (r : StoreRec)
    (h : ∃ x ∈ st, x.id = r.id) :
    (st.map fun x => if x.id == r.id then r else x).find?
        (fun x => x.id == r.id) = some r := by
  induction st with
  | nil => rcases h with ⟨x, hx, _⟩; cases hx
  | cons y st ih =>
    by_cases hy : y.id = r.id
    · simp [List.find?_cons, hy]
    · have h' : ∃ x ∈ st, x.id = r.id := by
        rcases h with ⟨x, hx, he⟩
        rcases List.mem_cons.mp hx with rfl | hmem
        · exact absurd he hy
        · exact ⟨x, hmem, he⟩
      simpa [List.find?_cons, hy] using ih h'

theorem collectRows_error (embed : String → Except String Vec)
    (l : List (String × String))
    (h : ∃ c ∈ l, ∃ m, embed c.2 = .error m) :
    ∃ m, collectRows embed l = .error m := by
  induction l with
  | nil => rcases h with ⟨c, hc, _⟩; cases hc
  | cons cd rest ih =>
    cases hcd : embed cd.2 with
    | error m' => exact ⟨m', by simp only [collectRows]; rw [hcd]; rfl⟩
    | ok v =>
      rcases h with ⟨c, hc, m, hm⟩
      rcases List.mem_cons.mp hc with rfl | hmem
      · rw [hcd] at hm; cases hm
      · rcases ih ⟨c, hmem, m, hm⟩ with ⟨m', hm'⟩
        exact ⟨m', by simp only [collectRows]; rw [hcd, hm']; rfl⟩

theorem collectSlackRows_cons_blank (embed : String → Except String Vec)
    (channel : String) (now i : Nat) (msg : SlackMsg)
    (rest : List (Nat × SlackMsg))
    (h : (pyStripL msg.content.data).isEmpty = true) :
    collectSlackRows embed channel now ((i, msg) :: rest) =
      collectSlackRows embed channel now rest := by
  simp [collectSlackRows, h]

theorem collectSlackRows_cons_valid (embed : String → Except String Vec)
    (channel : String) (now i : Nat) (msg : SlackMsg)
    (rest : List (Nat × SlackMsg))
    (h : (pyStripL msg.content.data).isEmpty = false) :
    collectSlackRows embed channel now ((i, msg) :: rest) =
      (embed msg.content).bind fun e =>
        (collectSlackRows embed channel now rest).bind fun tail =>
          Except.ok (⟨slackId channel i now, e, msg.content,
            slackMeta channel msg⟩ :: tail) := by
  simp only [collectSlackRows, h, Bool.false_eq_true, if_false]
  rfl

theorem collectSlackRows_error (embed : String → Except String Vec)
    (channel : String) (now : Nat) (l : List (Nat × SlackMsg))
    (h : ∃ p ∈ l, (pyStripL p.2.content.data).isEmpty = false ∧
          ∃ m, embed p.2.content = .error m) :
    ∃ m, collectSlackRows embed channel now l = .error m := by
  induction l with
  | nil => rcases h with ⟨p, hp, _⟩; cases hp
  | cons q rest ih =>
    rcases q with ⟨i, msg⟩
    cases hbl : (pyStripL msg.content.data).isEmpty with
    | true =>
      have h' : ∃ p ∈ rest, (pyStripL p.2.content.data).isEmpty = false ∧
          ∃ m, embed p.2.content = .error m := by
        rcases h with ⟨p, hp, hne, m, hm⟩
        rcases List.mem_cons.mp hp with rfl | hmem
        · rw [hbl] at hne; cases hne
        · exact ⟨p, hmem, hne, m, hm⟩
      rcases ih h' with ⟨m', hm'⟩
      exact ⟨m', by rw [collectSlackRows_cons_blank embed channel now i msg rest hbl]; exact hm'⟩
    | false =>
      cases hcd : embed msg.content with
      | error m' =>
        exact ⟨m', by
          rw [collectSlackRows_cons_valid embed channel now i msg rest hbl,
            hcd]; rfl⟩
      | ok v =>
        have h' : ∃ p ∈ rest, (pyStripL p.2.content.data).isEmpty = false ∧
            ∃ m, embed p.2.content = .error m := by
          rcases h with ⟨p, hp, hne, m, hm⟩
          rcases List.mem_cons.mp hp with rfl | hmem
          · rw [hcd] at hm; cases hm
          · exact ⟨p, hmem, hne, m, hm⟩
        rcases ih h' with ⟨m', hm'⟩
        exact ⟨m', by
          rw [collectSlackRows_cons_valid embed channel now i msg rest hbl,
            hcd, hm']; rfl⟩

theorem collectSlackRows_all_blank (embed : String → Except String Vec)
    (channel : String) (now : Nat) (l : List (Nat × SlackMsg))
    (h : ∀ p ∈ l, (pyStripL p.2.content.data).isEmpty = true) :
    collectSlackRows embed channel now l = .ok [] := by
  induction l with
  | nil => rfl
  | cons q rest ih =>
    rcases q with ⟨i, msg⟩
    have hq := h (i, msg) (List.mem_cons_self _ _)
    have hrest := ih fun p hp => h p (List.mem_cons_of_mem _ hp)
    rw [collectSlackRows_cons_blank embed channel now i msg rest hq]
    exact hrest

/-- The single-flight invariant the source does maintain: the None-check and
the global assignment run inside one atomic (await-free) block, so a second
build can never start. -/
def mcpInv (s : McpState) : Prop :=
  s.buildsStarted ≤ 1 ∧ (s.ragInit = false → s.buildsStarted = 0)

theorem stepGetRag_inv (s : McpState) (t : TaskProgress) (h : mcpInv s) :
    mcpInv (stepGetRag s t).1 := by
  rcases h with ⟨h1, h2⟩
  cases t with
  | notStarted =>
    cases hr : s.ragInit with
    | true => exact (by simp [stepGetRag, hr]; exact ⟨h1, h2⟩)
    | false =>
      have hb : s.buildsStarted = 0 := h2 hr
      constructor
      · simp [stepGetRag, hr]; omega
      · simp [stepGetRag, hr]
  | awaitingBuild => exact ⟨h1, h2⟩
  | finished b => exact ⟨h1, h2⟩

theorem stepTask_inv (w : Bool) (s : McpState) (h : mcpInv s) :
    mcpInv (stepTask w s) := by
  cases w with
  | true => exact stepGetRag_inv s s.taskA h
  | false => exact stepGetRag_inv s s.taskB h

theorem runSched_inv (sched : List Bool) (s : McpState) (h : mcpInv s) :
    mcpInv (runSched sched s) := by
  induction sched generalizing s with
  | nil => exact h
  | cons w sched ih =>
    have : runSched (w :: sched) s = runSched sched (stepTask w s) := rfl
    rw [this]
    exact ih _ (stepTask_inv w s h)

/-! ### Concrete instances used to evaluate the model -/

/-- An embedder that always succeeds, returning a fixed vector. -/
def embedConst : String → Except String Vec := fun _ => .ok [0]

/-- An embedder that fails exactly on the text `"bad"`. -/
def embedFailOnBad : String → Except String Vec :=
  fun s => if s = "bad" then .error "EmbeddingError" else .ok [0]

/-- A store query that always returns the empty result slice. -/
def qsEmptyW : Vec → Nat → Option String → QueryResult :=
  fun _ _ _ => ⟨[], [], [], []⟩

/-- A store query returning two rows with ascending distances 0 and 1. -/
def qsPairW : Vec → Nat → Option String → QueryResult :=
  fun _ _ _ => ⟨["a", "b"], ["id0", "id1"],
    [[("source", "kedro_docs")], [("source", "slack")]], [0, 1]⟩

/-- An encoder returning one fixed vector per input text. -/
def encodeW : List String → List Vec := fun l => l.map fun _ => [0]

/-- The chunking example text used by the spec (§8). -/
def c4Input : String := "intro\n# Section A\nfoo\n# Section B\nbar"

/-! ### Claims -/

/-- C1: the claim states that a documentation build whose HTTP fetch returns
a non-2xx response fails loudly and writes nothing.  The code contradicts
this: `build_knowledge_base` reads `response.text` without ever inspecting
`response.status_code` (`src/kedro_rag.py` lines 71–73 — no
`raise_for_status`, and `httpx` does not raise on non-2xx by itself), so the
body of a 404 response is chunked, embedded, written to the collection, and
the build reports success.  This theorem evaluates the model at that failing
input: status 404 with body `"Not Found"` yields a successful build that
writes one chunk. -/
theorem C1_non2xx_body_is_ingested :
    build_knowledge_base embedConst (Except.ok ⟨404, "Not Found"⟩) [] =
      Except.ok ([⟨"kedro_doc_chunk_0", [0], "Not Found",
          docMeta "kedro_doc_chunk_0"⟩],
        ⟨["kedro_doc_chunk_0"], [[0]], ["Not Found"],
          [docMeta "kedro_doc_chunk_0"]⟩) := rfl

/-- C2: re-ingesting a record whose id is already present overwrites it in
place: the collection's count is unchanged and the record stored under that
id is the new one.  `collection_add` is the store write used by both
ingestion pipelines, modelled from spec §3/§4.3 (the store client itself is
external to the repository). -/
theorem C2_reingest_same_id_overwrites (st : Collection) (r : StoreRec)
    (h : ∃ x ∈ st, x.id = r.id) :
    (collection_add st (recsToCall [r])).length = st.length ∧
    (collection_add st (recsToCall [r])).find? (fun x => x.id == r.id) =
      some r := by
  have hany : st.any (fun x => x.id == r.id) = true := by
    rcases h with ⟨x, hx, he⟩
    exact List.any_eq_true.mpr ⟨x, hx, by simp [he]⟩
  have hca : collection_add st (recsToCall [r]) =
      st.map fun x => if x.id == r.id then r else x := by
    show upsertOne st r = _
    unfold upsertOne
    rw [hany]
    simp
  rw [hca]
  exact ⟨by simp, find_replaced st r h⟩

/-- Witness for C2: overwriting id `"a"` in a one-record collection. -/
theorem C2_reingest_same_id_overwrites_witness :
    (collection_add [⟨"a", [0], "old", []⟩]
        (recsToCall [⟨"a", [1], "new", []⟩])).length = 1 ∧
    (collection_add [⟨"a", [0], "old", []⟩]
        (recsToCall [⟨"a", [1], "new", []⟩])).find?
        (fun x => x.id == "a") = some ⟨"a", [1], "new", []⟩ :=
  C2_reingest_same_id_overwrites [⟨"a", [0], "old", []⟩] ⟨"a", [1], "new", []⟩
    ⟨⟨"a", [0], "old", []⟩, by decide, by decide⟩

/-- C3: for every topic, `get_context` runs a search, concatenates the
returned contents with the visible separator, and returns the sentinel
string on an empty result set; the `get_kedro_context` tool wraps that
string in its success (non-error) result, so the sentinel is a valid
non-error outcome.  (`KedroRAG.get_context` is modelled from spec §4.5, its
definition being absent from `src/`.) -/
theorem C3_get_context_contract
    (queryStore : Vec → Nat → Option String → QueryResult)
    (encode : List String → List Vec) (topic : String) (n : Nat) :
    get_kedro_context queryStore encode topic n =
      McpContextResult.ok topic (get_context queryStore encode topic n)
        "kedro_documentation" n ∧
    (search queryStore encode topic none n = [] →
      get_context queryStore encode topic n = noContextSentinel) ∧
    (search queryStore encode topic none n ≠ [] →
      get_context queryStore encode topic n =
        String.intercalate contextSeparator
          ((search queryStore encode topic none n).map (·.content))) := by
  refine ⟨rfl, ?_, ?_⟩
  · intro h
    simp [get_context, h]
  · intro h
    simp [get_context, h]

/-- Witness for C3: an empty store yields the sentinel. -/
theorem C3_get_context_contract_witness :
    get_context qsEmptyW encodeW "catalog" 3 = noContextSentinel :=
  (C3_get_context_contract qsEmptyW encodeW "catalog" 3).2.1 rfl

/-- C4 counterexample: the claim states that chunking
`"intro\n# Section A\nfoo\n# Section B\nbar"` yields contents
`"intro"`, `"foo"`, `"bar"` with heading lines excluded.  It does not:
`re.split(r'\n#{1,3}\s+', …)` removes only the newline, the `#` run and the
following whitespace — the heading text itself stays at the head of the next
span. -/
theorem C4_counterexample :
    (format_documentation c4Input).map Prod.snd ≠ ["intro", "foo", "bar"] := by
  decide

/-- C4 amended: chunking the example text yields exactly 3 chunks, but the
heading text remains as the first line of its following chunk: contents are
`"intro"`, `"Section A\nfoo"`, `"Section B\nbar"` (only the `\n#`+whitespace
separator is removed). -/
theorem C4_chunks_keep_heading_text :
    format_documentation c4Input =
      [("kedro_doc_chunk_0", "intro"), ("kedro_doc_chunk_1", "Section A\nfoo"),
       ("kedro_doc_chunk_2", "Section B\nbar")] := by decide

/-- C5 counterexample: the claim states a per-item embedding failure is
skipped so the rest of the batch is still written.  With body
`"good\n# bad"` (chunks `"good"` and `"bad"`) and an embedder failing on
`"bad"`, the whole build aborts with the error — the chunk `"good"` is not
written either (the store write on lines 96–101 is never reached). -/
theorem C5_counterexample :
    build_knowledge_base embedFailOnBad (Except.ok ⟨200, "good\n# bad"⟩) [] =
      Except.error "EmbeddingError" := rfl

/-- C5 amended: in both ingestion pipelines, an embedding failure on any
single (non-skipped) record aborts the entire batch — no per-item
skip-and-log exists (`src/kedro_rag.py` lines 87–94 and 142–165 have no
`try`/`except` around the embedding call), so no record of the batch is
written. -/
theorem C5_embedding_failure_aborts_batch :
    (∀ (embed : String → Except String Vec) (resp : HttpResponse)
        (st : Collection),
      (∃ c ∈ format_documentation resp.text, ∃ m, embed c.2 = .error m) →
      exceptIsOk (build_knowledge_base embed (Except.ok resp) st) = false) ∧
    (∀ (embed : String → Except String Vec) (msgs : List SlackMsg)
        (channel : String) (now : Nat) (st : Collection),
      (∃ p ∈ enumFrom 0 msgs, (pyStripL p.2.content.data).isEmpty = false ∧
        ∃ m, embed p.2.content = .error m) →
      exceptIsOk (add_slack_data embed msgs channel now st) = false) := by
  constructor
  · intro embed resp st h
    rcases collectRows_error embed (format_documentation resp.text) h with
      ⟨m, hm⟩
    have hred : build_knowledge_base embed (Except.ok resp) st =
        Except.bind (collectRows embed (format_documentation resp.text))
          (fun rows =>
            Except.ok (collection_add st (recsToCall rows), recsToCall rows)) :=
      rfl
    rw [hred, hm]
    rfl
  · intro embed msgs channel now st h
    rcases collectSlackRows_error embed channel now (enumFrom 0 msgs) h with
      ⟨m, hm⟩
    have hred : add_slack_data embed msgs channel now st =
        Except.bind (collectSlackRows embed channel now (enumFrom 0 msgs))
          (fun rows =>
            if rows.isEmpty then Except.ok (st, none)
            else Except.ok (collection_add st (recsToCall rows),
              some (recsToCall rows))) := rfl
    rw [hred, hm]
    rfl

/-- Witness for C5 at the concrete aborting build. -/
theorem C5_embedding_failure_aborts_batch_witness :
    exceptIsOk (build_knowledge_base embedFailOnBad
      (Except.ok ⟨200, "good\n# bad"⟩) []) = false :=
  C5_embedding_failure_aborts_batch.1 embedFailOnBad ⟨200, "good\n# bad"⟩ []
    ⟨("kedro_doc_chunk_1", "bad"), by decide, "EmbeddingError", rfl⟩

/-- Element lookup through `map` over an enumeration. -/
theorem get_map_enumFrom {α β : Type} (g : Nat × α → β) (n : Nat) (l : List α)
    (i : Nat) (hi : i < l.length)
    (h : i < ((enumFrom n l).map g).length) :
    ((enumFrom n l).map g).get ⟨i, h⟩ = g (n + i, l.get ⟨i, hi⟩) := by
  induction l generalizing n i with
  | nil => cases hi
  | cons a l ih =>
    cases i with
    | zero => simp [enumFrom]
    | succ i =>
      have hi' : i < l.length := Nat.lt_of_succ_lt_succ hi
      have h' : i < ((enumFrom (n + 1) l).map g).length := by
        simpa [enumFrom, List.length_map, enumFrom_length] using h
      have hi2 := ih (n + 1) i hi' h'
      simp only [enumFrom, List.map_cons, List.get_cons_succ]
      rw [hi2]
      have hn : n + 1 + i = n + (i + 1) := by omega
      rw [hn]

/-- The length of a `search` result is the number of documents the store
returned. -/
theorem search_length (queryStore : Vec → Nat → Option String → QueryResult)
    (encode : List String → List Vec) (q : String) (sf : Option String)
    (top_k : Nat) :
    (search queryStore encode q sf top_k).length =
      (queryStore (queryEmbedding encode q) top_k sf).documents.length := by
  simp [search, List.length_map, enumFrom_length]

/-- The relevance score of the `i`-th `search` result is 1 minus the
store's `i`-th reported distance. -/
theorem search_get_score (queryStore : Vec → Nat → Option String → QueryResult)
    (encode : List String → List Vec) (q : String) (sf : Option String)
    (top_k : Nat) (i : Fin (search queryStore encode q sf top_k).length) :
    ((search queryStore encode q sf top_k).get i).relevance_score =
      1 - (queryStore (queryEmbedding encode q) top_k sf).distances.getD i.1
        0 := by
  rcases i with ⟨i, h⟩
  have hi : i <
      (queryStore (queryEmbedding encode q) top_k sf).documents.length := by
    rw [← search_length queryStore encode q sf top_k]; exact h
  have heq := get_map_enumFrom
    (fun p : Nat × String =>
      ({ content := p.2
         source := lookupD
           ((queryStore (queryEmbedding encode q) top_k sf).metadatas.getD
             p.1 []) "source" "unknown"
         metadata :=
           (queryStore (queryEmbedding encode q) top_k sf).metadatas.getD
             p.1 []
         relevance_score :=
           1 - (queryStore (queryEmbedding encode q) top_k sf).distances.getD
             p.1 0 } : SearchRow))
    0 (queryStore (queryEmbedding encode q) top_k sf).documents i hi h
  calc ((search queryStore encode q sf top_k).get ⟨i, h⟩).relevance_score
      = 1 - (queryStore (queryEmbedding encode q) top_k sf).distances.getD
          (0 + i) 0 := congrArg (·.relevance_score) heq
    _ = 1 - (queryStore (queryEmbedding encode q) top_k sf).distances.getD
          i 0 := by rw [Nat.zero_add]

/-- C6: under the store contract assumed by the source and fixed by spec
§4.3 — the store returns at most `n_results` rows, one distance per
document, in ascending-distance order — `search` returns at most `top_k`
records, its relevance scores are `1 - distance` in store order, and they
are non-increasing. -/
theorem C6_search_contract
    (queryStore : Vec → Nat → Option String → QueryResult)
    (encode : List String → List Vec) (q : String) (sf : Option String)
    (top_k : Nat)
    (hlen :
      (queryStore (queryEmbedding encode q) top_k sf).documents.length ≤
        top_k)
    (hdl : (queryStore (queryEmbedding encode q) top_k sf).distances.length =
      (queryStore (queryEmbedding encode q) top_k sf).documents.length)
    (hsorted : List.Sorted (· ≤ ·)
      (queryStore (queryEmbedding encode q) top_k sf).distances) :
    (search queryStore encode q sf top_k).length ≤ top_k ∧
    List.Sorted (· ≥ ·)
      ((search queryStore encode q sf top_k).map (·.relevance_score)) ∧
    (∀ i : Fin (search queryStore encode q sf top_k).length,
      ((search queryStore encode q sf top_k).get i).relevance_score =
        1 - (queryStore (queryEmbedding encode q) top_k sf).distances.getD
          i.1 0) := by
  refine ⟨by rw [search_length]; exact hlen, ?_,
    search_get_score queryStore encode q sf top_k⟩
  show List.Pairwise _ _
  apply List.pairwise_iff_get.mpr
  intro a b hab
  have hla : a.1 < (search queryStore encode q sf top_k).length := by
    have := a.2; simpa [List.length_map] using this
  have hlb : b.1 < (search queryStore encode q sf top_k).length := by
    have := b.2; simpa [List.length_map] using this
  rw [List.get_map, List.get_map]
  rw [search_get_score queryStore encode q sf top_k ⟨a.1, hla⟩,
    search_get_score queryStore encode q sf top_k ⟨b.1, hlb⟩]
  have hbd : b.1 <
      (queryStore (queryEmbedding encode q) top_k sf).distances.length := by
    rw [hdl, ← search_length queryStore encode q sf top_k]; exact hlb
  have had : a.1 <
      (queryStore (queryEmbedding encode q) top_k sf).distances.length :=
    Nat.lt_trans hab hbd
  rw [List.getD_eq_get _ _ had, List.getD_eq_get _ _ hbd]
  have hrel := hsorted.rel_get_of_lt
    (a := ⟨a.1, had⟩) (b := ⟨b.1, hbd⟩) hab
  exact sub_le_sub_left hrel 1

/-- Witness for C6 at a concrete two-row store result. -/
theorem C6_search_contract_witness :
    (search qsPairW encodeW "q" none 2).length ≤ 2 ∧
    List.Sorted (· ≥ ·)
      ((search qsPairW encodeW "q" none 2).map (·.relevance_score)) := by
  have h := C6_search_contract qsPairW encodeW "q" none 2 (by decide) rfl
    (by decide)
  exact ⟨h.1, h.2.1⟩

/-- C7 counterexample: the claim states no ingestion pipeline ever issues a
store write with an empty `ids` sequence.  The documentation pipeline does:
with a whitespace-only body there are zero chunks, yet
`build_knowledge_base` still reaches its unconditional `collection.add`
call (`src/kedro_rag.py` lines 96–101) — the second component of the result
is the issued call, with `ids = []`. -/
theorem C7_counterexample :
    build_knowledge_base embedConst (Except.ok ⟨200, "  "⟩) [] =
      Except.ok ([], ⟨[], [], [], []⟩) := rfl

/-- C7 amended: the conversational pipeline short-circuits — when every
record is blank it issues no store write at all (`if ids:` guard, line 167)
— but the documentation pipeline issues its single store write
unconditionally, with an empty `ids` sequence when chunking produced zero
chunks. -/
theorem C7_empty_ingestion :
    (∀ (embed : String → Except String Vec) (msgs : List SlackMsg)
        (channel : String) (now : Nat) (st : Collection),
      (∀ m ∈ msgs, (pyStripL m.content.data).isEmpty = true) →
      add_slack_data embed msgs channel now st = Except.ok (st, none)) ∧
    (∀ (embed : String → Except String Vec) (resp : HttpResponse)
        (st : Collection),
      format_documentation resp.text = [] →
      build_knowledge_base embed (Except.ok resp) st =
        Except.ok (st, ⟨[], [], [], []⟩)) := by
  constructor
  · intro embed msgs channel now st h
    have hrows : collectSlackRows embed channel now (enumFrom 0 msgs) =
        .ok [] :=
      collectSlackRows_all_blank embed channel now (enumFrom 0 msgs)
        (fun p hp => h p.2 (enumFrom_mem_snd 0 msgs p hp))
    have hred : add_slack_data embed msgs channel now st =
        Except.bind (collectSlackRows embed channel now (enumFrom 0 msgs))
          (fun rows =>
            if rows.isEmpty then Except.ok (st, none)
            else Except.ok (collection_add st (recsToCall rows),
              some (recsToCall rows))) := rfl
    rw [hred, hrows]
    rfl
  · intro embed resp st h
    have hred : build_knowledge_base embed (Except.ok resp) st =
        Except.bind (collectRows embed (format_documentation resp.text))
          (fun rows =>
            Except.ok (collection_add st (recsToCall rows), recsToCall rows)) :=
      rfl
    rw [hred, h]
    rfl

/-- Witness for C7: one blank Slack message is a no-op; an empty body still
issues the empty docs write. -/
theorem C7_empty_ingestion_witness :
    add_slack_data embedConst [⟨" ", []⟩] "general" 0 [] =
      Except.ok ([], none) ∧
    build_knowledge_base embedConst (Except.ok ⟨200, ""⟩) [] =
      Except.ok ([], ⟨[], [], [], []⟩) :=
  ⟨C7_empty_ingestion.1 embedConst [⟨" ", []⟩] "general" 0 [] (by decide),
   C7_empty_ingestion.2 embedConst ⟨200, ""⟩ [] (by decide)⟩

/-- C8 counterexample: the claim states every concurrent caller observes
the same completed instance once ready.  Under asyncio's cooperative
scheduling the code violates this: schedule task A then task B from a fresh
process — A enters `get_rag`, sets the global `rag_system` (line 42) and
suspends at `await rag_system.build_knowledge_base()` (line 49); B then
finds `rag_system` set (line 36) and returns the instance at once (line 63)
although the build has not completed. -/
theorem C8_counterexample :
    (runSched [true, false] initState).taskB = TaskProgress.finished false ∧
    (runSched [true, false] initState).kbBuilt = false := by decide

/-- C8 amended: at most one build ever starts — the `None`-check and the
global assignment run in one suspension-free block, so duplicate builds are
impossible — but a caller arriving while the build is in flight is handed
the shared instance immediately, without awaiting the build's completion
(see the counterexample). -/
theorem C8_single_build (sched : List Bool) :
    (runSched sched initState).buildsStarted ≤ 1 :=
  (runSched_inv sched initState ⟨Nat.zero_le 1, fun _ => rfl⟩).1

/-- C9: the embedding closure returns a single flat vector for a single
string or a one-element list (`embeddings[0].tolist()`, line 59), and a
list of vectors — one per text — for two or more texts (line 62); the
one-element shape therefore differs from the per-element shape of larger
batches. -/
theorem C9_embedding_output_shape
    (encode : List String → List Vec)
    (henc : ∀ l, (encode l).length = l.length) :
    (∀ s : String,
      embedding_function encode (.str s) = .vec ((encode [s]).getD 0 []) ∧
      embedding_function encode (.list [s]) = .vec ((encode [s]).getD 0 [])) ∧
    (∀ l : List String, 2 ≤ l.length →
      embedding_function encode (.list l) = .vecs (encode l) ∧
      (encode l).length = l.length) := by
  constructor
  · intro s; exact ⟨rfl, rfl⟩
  · intro l hl
    refine ⟨?_, henc l⟩
    have hne : l.length ≠ 1 := by omega
    simp [embedding_function, hne]

/-- Witness for C9 with a concrete encoder. -/
theorem C9_embedding_output_shape_witness :
    embedding_function encodeW (.str "hello") = .vec [0] ∧
    embedding_function encodeW (.list ["a", "b"]) = .vecs [[0], [0]] := by
  have h := C9_embedding_output_shape encodeW (fun l => by simp [encodeW])
  exact ⟨((h.1 "hello").1).trans rfl,
    ((h.2 ["a", "b"] (by decide)).1).trans rfl⟩

/-- C10: every chunk value of `format_documentation` is whitespace-stripped
(stripping is idempotent on it) and non-empty, and every key is
`"kedro_doc_chunk_<i>"` where `i` is the index of the corresponding span
among all heading-split spans of the input — blank spans are discarded but
still consume an index, so keys may be sparse.  Determinism on identical
input is inherent: the model is a pure function. -/
theorem C10_chunk_invariants (content : String) (k v : String)
    (h : (k, v) ∈ format_documentation content) :
    pyStripS v = v ∧ v ≠ "" ∧
    ∃ i, i < (splitSections content.data).length ∧
      k = "kedro_doc_chunk_" ++ toString i ∧
      v = (pyStripL ((splitSections content.data).getD i [])).asString := by
  rcases List.mem_filterMap.mp h with ⟨p, hp, hpv⟩
  by_cases hbl : (pyStripL p.2).isEmpty
  · rw [if_pos hbl] at hpv; cases hpv
  · rw [if_neg hbl] at hpv
    have hk : "kedro_doc_chunk_" ++ toString p.1 = k :=
      congrArg Prod.fst (Option.some.inj hpv)
    have hv : (pyStripL p.2).asString = v :=
      congrArg Prod.snd (Option.some.inj hpv)
    rcases enumFrom_mem ([] : List Char) 0 (splitSections content.data)
      p.1 p.2 hp with ⟨_, hlt, hgetD⟩
    rw [Nat.sub_zero] at hlt hgetD
    refine ⟨?_, ?_, p.1, hlt, hk.symm, by rw [hgetD, hv]⟩
    · rw [← hv]
      show (pyStripL ((pyStripL p.2).asString).data).asString = _
      have hd : ((pyStripL p.2).asString).data = pyStripL p.2 := rfl
      rw [hd, pyStripL_idem]
    · rw [← hv]
      intro hcon
      have hnil : pyStripL p.2 = [] := congrArg String.data hcon
      exact hbl (by rw [hnil]; rfl)

/-- Witness for C10: input `"\n# A"` produces the single, sparse-keyed
chunk `("kedro_doc_chunk_1", "A")` (span 0 is blank and discarded). -/
theorem C10_chunk_invariants_witness :
    pyStripS "A" = "A" ∧ ("A" : String) ≠ "" := by
  have h := C10_chunk_invariants "\n# A" "kedro_doc_chunk_1" "A" (by decide)
  exact ⟨h.1, h.2.1⟩
